import Mathlib

/-
Verification of the reinforcement-learning self-driving simulation
(RL_based_SDC.py).  The definitions below are a shallow embedding of the
program: machine floats are idealised as real numbers, the external policy
network together with its random action sampling is abstracted as an oracle
indexed by the step number, and torch's `nan` padding marker is modelled by
`Option ℝ` with `none` as the marker.
-/

open Classical

noncomputable section

namespace SDC

/-- A 2-D point, the pair of its coordinates. -/
abbrev Point : Type := ℝ × ℝ

/-- A segment, given by its two endpoints (rows of a 2x2 array in the source). -/
abbrev Seg : Type := Point × Point

/-- Function `distance` (RL_based_SDC.py:141): Euclidean distance of two points. -/
def distance (pos1 pos2 : Point) : ℝ :=
  Real.sqrt ((pos1.1 - pos2.1) ^ 2 + (pos1.2 - pos2.2) ^ 2)

/-- The fields of `Car.params` (RL_based_SDC.py:52).  The derived entry `pos` is
kept implicit as `(x, y)`: the code recomputes it from `x` and `y` after every
update, so it never gets out of sync.  The history bookkeeping and `total_dis`
(used only for plotting) are not modelled. -/
structure CarState where
  x : ℝ
  y : ℝ
  yaw : ℝ
  vx : ℝ
  vy : ℝ
  v : ℝ
  a : ℝ
  s : ℝ
  time : ℝ
  dt : ℝ

/-- `params["pos"]`, always `(x, y)`. -/
def Car.pos (c : CarState) : Point := (c.x, c.y)

/-- `Car.__init__` called with keyword arguments `x, y, yaw, vx` (as in the
training loop, RL_based_SDC.py:701); every other parameter stays 0 and
`_params_update` derives `v = sqrt(vx^2 + vy^2)`. -/
def Car.init (x y yaw vx : ℝ) : CarState :=
  { x := x, y := y, yaw := yaw, vx := vx, vy := 0,
    v := Real.sqrt (vx ^ 2 + (0 : ℝ) ^ 2), a := 0, s := 0, time := 0, dt := 0 }

/-- `Car._model` (RL_based_SDC.py:101): advances `time` by `dt` once more and
returns the next `x`, `y`, `vx`, `yaw` (the keys of `_nparams`). -/
def Car.model (c : CarState) : CarState × (ℝ × ℝ × ℝ × ℝ) :=
  let c1 : CarState := { c with time := c.time + c.dt }
  (c1, (c1.x + c1.vx * Real.cos c1.yaw * c1.dt,
        c1.y + c1.vx * Real.sin c1.yaw * c1.dt,
        c1.vx + c1.a * c1.dt,
        c1.yaw + c1.s * c1.dt))

/-- `Car._params_update` (RL_based_SDC.py:111) applied to `_nparams`: writes
`x`, `y`, `vx`, `yaw`, then recomputes `v = sqrt(vx^2 + vy^2)`. -/
def Car.paramsUpdate (c : CarState) (nx ny nvx nyaw : ℝ) : CarState :=
  let c1 : CarState := { c with x := nx, y := ny, vx := nvx, yaw := nyaw }
  { c1 with v := Real.sqrt (c1.vx ^ 2 + c1.vy ^ 2) }

/-- `Car.update` (RL_based_SDC.py:71): stores the controls, advances `time` by
`dt`, runs `_model`, computes the displacement segment `dpos` and its length
`step_dis`, and applies `_params_update`.  Returns (new state, step_dis, dpos). -/
def Car.update (c : CarState) (a steer dt : ℝ) : CarState × ℝ × Seg :=
  let c1 : CarState := { c with a := a, s := steer, dt := dt, time := c.time + dt }
  let m := Car.model c1
  let npos : Point := (m.2.1, m.2.2.1)
  (Car.paramsUpdate m.1 m.2.1 m.2.2.1 m.2.2.2.1 m.2.2.2.2,
   distance (Car.pos m.1) npos, (Car.pos m.1, npos))

/-- `is_online` (RL_based_SDC.py:391): tolerance-based test that `pos` lies on
the segment `line` — endpoint coincidence (1e-5 per coordinate), else
colinearity (cross-product below 1e-5) plus a componentwise sign test. -/
def is_online (line : Seg) (pos : Point) : Prop :=
  if (|line.1.1 - pos.1| ≤ 1e-5 ∧ |line.1.2 - pos.2| ≤ 1e-5) ∨
     (|line.2.1 - pos.1| ≤ 1e-5 ∧ |line.2.2 - pos.2| ≤ 1e-5) then True
  else if 1e-5 ≤
      |(line.1.2 - pos.2) * (line.2.1 - pos.1) - (line.1.1 - pos.1) * (line.2.2 - pos.2)| then
    False
  else
    Real.sign (line.1.1 - pos.1) = Real.sign (pos.1 - line.2.1) ∧
    Real.sign (line.1.2 - pos.2) = Real.sign (pos.2 - line.2.2)

/-- `cal_crosspoint` (RL_based_SDC.py:345): intersection of the two infinite
lines through the segments, in slope form with vertical special cases;
parallel inputs yield `(False, (0, 0))`. -/
def cal_crosspoint (line1 line2 : Seg) : Prop × Point :=
  let x1 := line1.1.1
  let y1 := line1.1.2
  let x2 := line1.2.1
  let y2 := line1.2.2
  let x3 := line2.1.1
  let y3 := line2.1.2
  let x4 := line2.2.1
  let y4 := line2.2.2
  if x1 = x2 ∧ x3 = x4 then (False, (0, 0))
  else if x1 = x2 then (True, (x1, (y4 - y3) / (x4 - x3) * (x1 - x3) + y3))
  else if x3 = x4 then (True, (x3, (y2 - y1) / (x2 - x1) * (x3 - x1) + y1))
  else
    let a1 := (y2 - y1) / (x2 - x1)
    let a3 := (y4 - y3) / (x4 - x3)
    if a1 = a3 then (False, (0, 0))
    else
      let x := (a1 * x1 - y1 - a3 * x3 + y3) / (a1 - a3)
      (True, (x, (y2 - y1) / (x2 - x1) * (x - x1) + y1))

/-- `crossing` (RL_based_SDC.py:320): the infinite-line intersection counts as
a crossing only if it lies on both segments per `is_online`. -/
def crossing (line1 line2 : Seg) : Prop × Point :=
  let fc := cal_crosspoint line1 line2
  (fc.1 ∧ is_online line1 fc.2 ∧ is_online line2 fc.2, fc.2)

/-- `MAP.__init__` (RL_based_SDC.py:273): consecutive vertices of each polyline
become wall segments, pooled over all polylines. -/
def MAP.mkLines (walls : List (List Point)) : List Seg :=
  walls.foldl (fun acc w => acc ++ w.zip w.tail) []

/-- `MAP.is_collision` (RL_based_SDC.py:295): tests the probe against every
wall segment, accumulating a crossing point for each wall it crosses. -/
def MAP.is_collision (lines : List Seg) (line : Seg) : Prop × List Point :=
  lines.foldl
    (fun acc road_line =>
      let fc := crossing road_line line
      if fc.1 then (True, acc.2 ++ [fc.2]) else acc)
    (False, [])

/-- `np.deg2rad`. -/
def deg2rad (d : ℝ) : ℝ := d * (Real.pi / 180)

/-- `LiDAR.__init__` (RL_based_SDC.py:176): the evenly spaced sensor angles
relative to the heading, in radians. -/
def sensorAnglesStd (sensorAngleMax : ℝ) (sensorNum : ℕ) : List ℝ :=
  (List.range sensorNum).map fun (i : ℕ) =>
    deg2rad (-sensorAngleMax / 2 + sensorAngleMax / ((sensorNum : ℝ) - 1) * (i : ℝ))

/-- The probe segment of one ray (RL_based_SDC.py:241): `line_end_xy` as first
endpoint and the vehicle position as second, exactly the source's row order. -/
def probeSeg (pos : Point) (lineLen angle : ℝ) : Seg :=
  ((pos.1 + Real.cos angle * lineLen, pos.2 + Real.sin angle * lineLen), pos)

/-- The `for p in points` loop of `LiDAR.make_line` (RL_based_SDC.py:248):
keeps the smallest distance seen so far (starting at `line_len`) and the point
that achieved it; the stored point stays untouched when no strict improvement
happens. -/
def nearestFold (pos : Point) (acc : ℝ × Option Point) : List Point → ℝ × Option Point
  | [] => acc
  | p :: rest =>
    nearestFold pos (if distance pos p < acc.1 then (distance pos p, some p) else acc) rest

/-- One iteration of the ray loop in `LiDAR.make_line` (RL_based_SDC.py:236):
`prev` is the current value of the loop-carried local variable `point`
(`none` while that variable is still unassigned).  Returns the stored
endpoint, the reaches-wall flag, and the reported distance. -/
def rayStep (lines : List Seg) (pos : Point) (lineLen : ℝ) (prev : Option Point)
    (angle : ℝ) : Option Point × Prop × ℝ :=
  let hit := MAP.is_collision lines (probeSeg pos lineLen angle)
  if hit.1 then
    let dp := nearestFold pos (lineLen, prev) hit.2
    (dp.2, True, dp.1)
  else
    (some (probeSeg pos lineLen angle).1, False, lineLen)

/-- `LiDAR.make_line` (RL_based_SDC.py:209): the per-ray readings, threading
the `point` variable from one ray to the next exactly as the source does. -/
def LiDAR.make_line (lines : List Seg) (pos : Point) (yaw lineLen : ℝ) :
    List ℝ → Option Point → List (Option Point × Prop × ℝ)
  | [], _ => []
  | angleStd :: rest, prev =>
    let r := rayStep lines pos lineLen prev (angleStd + yaw)
    r :: LiDAR.make_line lines pos yaw lineLen rest r.1

/-- One entry of `experiences` (RL_based_SDC.py:566): the fields the claims
are about; `output`, `action` and `one_hot` belong to the external policy. -/
structure StepRec where
  state : List ℝ
  reward : ℝ
  done : Prop

/-- The mutable locals of the rollout loop in `episode` (RL_based_SDC.py:519). -/
structure LoopSt where
  car : CarState
  exps : List StepRec
  piL : List (Option ℝ)
  rwL : List (Option ℝ)
  step : ℕ
  err : Prop

/-- The rollout's fixed data: the map's wall segments, the LiDAR configuration,
the step budget, and the external policy interface — `act` maps the step index
and the observation to the chosen `(a, steer, dt)` (covering the network,
the random sampling and the action table), and `prob` is the recorded scalar
`output @ one_hot` at each step. -/
structure EpCfg where
  lines : List Seg
  anglesStd : List ℝ
  lineLen : ℝ
  maxSteps : ℕ
  act : ℕ → List ℝ → ℝ × ℝ × ℝ
  prob : ℕ → ℝ

/-- `collision_reward` (RL_based_SDC.py:521). -/
def collision_reward : ℝ := 0

/-- The per-ray distances handed to the policy (RL_based_SDC.py:529). -/
def epDistances (cfg : EpCfg) (car : CarState) : List ℝ :=
  (LiDAR.make_line cfg.lines (Car.pos car) car.yaw cfg.lineLen cfg.anglesStd none).map
    (fun r => r.2.2)

/-- `input = torch.cat([distances, vx])` (RL_based_SDC.py:534). -/
def epInput (cfg : EpCfg) (car : CarState) : List ℝ :=
  epDistances cfg car ++ [car.vx]

/-- The action chosen by the external policy at the current step. -/
def epCtrl (cfg : EpCfg) (st : LoopSt) : ℝ × ℝ × ℝ :=
  cfg.act st.step (epInput cfg st.car)

/-- `car.update(**action)` (RL_based_SDC.py:541). -/
def epUpd (cfg : EpCfg) (st : LoopSt) : CarState × ℝ × Seg :=
  Car.update st.car (epCtrl cfg st).1 (epCtrl cfg st).2.1 (epCtrl cfg st).2.2

/-- The collision test on the displacement segment (RL_based_SDC.py:554). -/
def epCollision (cfg : EpCfg) (st : LoopSt) : Prop :=
  (MAP.is_collision cfg.lines (epUpd cfg st).2.2).1

/-- The step-budget test `len(experiences) >= max_number_of_steps - 1`
(RL_based_SDC.py:561), over ℤ as in Python. -/
def epBudget (cfg : EpCfg) (st : LoopSt) : Prop :=
  (st.exps.length : ℤ) ≥ (cfg.maxSteps : ℤ) - 1

/-- The episode-termination flag after one iteration (RL_based_SDC.py:555). -/
def epDone (cfg : EpCfg) (st : LoopSt) : Prop :=
  epCollision cfg st ∨ epBudget cfg st

/-- The recorded reward: `step_dis`, overridden by `collision_reward` on
collision (RL_based_SDC.py:542 and 558). -/
def epReward (cfg : EpCfg) (st : LoopSt) : ℝ :=
  if epCollision cfg st then collision_reward else (epUpd cfg st).2.1

/-- The record `step_dict` appended to `experiences` (RL_based_SDC.py:566). -/
def stepRecOf (cfg : EpCfg) (st : LoopSt) : StepRec :=
  { state := epDistances cfg st.car, reward := epReward cfg st, done := epDone cfg st }

/-- Both indexed writes `pi_list[step] = ...` and `reward_list[step] = ...`
(RL_based_SDC.py:575 and 577) succeed exactly when `step` is in range of the
fixed-size tensors; otherwise Python raises an uncaught `IndexError`. -/
def epWriteOk (st : LoopSt) : Prop :=
  st.step < st.piL.length ∧ st.step < st.rwL.length

/-- One iteration of the `while` body of `episode` (RL_based_SDC.py:527),
including the raise semantics of the two indexed writes: an assignment is
reflected in the state exactly when Python executes it — `pi_list[step]`
(line 575) is skipped when its index is out of range (`List.set` is then the
identity), `reward_list[step]` (line 577) additionally requires line 575 not
to have raised, `step += 1` (line 578) requires both writes to have
succeeded, and `err` records that an `IndexError` was raised, aborting the
rollout. -/
def stepOnce (cfg : EpCfg) (st : LoopSt) : LoopSt :=
  { car := (epUpd cfg st).1,
    exps := st.exps ++ [stepRecOf cfg st],
    piL := st.piL.set st.step (some (cfg.prob st.step)),
    rwL := if st.step < st.piL.length then st.rwL.set st.step (some (epReward cfg st))
           else st.rwL,
    step := if epWriteOk st then st.step + 1 else st.step,
    err := st.err ∨ ¬ epWriteOk st }

/-- The `while done == False` loop of `episode` (RL_based_SDC.py:527): an
uncaught `IndexError` in the body propagates out of the loop (no further
iteration runs); otherwise the loop continues until `done` is set.  It
terminates because each iteration appends one record and the budget test
forces `done` once `len(experiences) >= max_number_of_steps - 1`. -/
def episodeLoop (cfg : EpCfg) (st : LoopSt) : LoopSt :=
  if herr : (stepOnce cfg st).err then stepOnce cfg st
  else if hnd : epDone cfg st then stepOnce cfg st
  else episodeLoop cfg (stepOnce cfg st)
termination_by cfg.maxSteps - st.exps.length
decreasing_by
  have hb : ¬ epBudget cfg st := fun hb => hnd (Or.inr hb)
  unfold epBudget at hb
  simp only [stepOnce, List.length_append, List.length_cons, List.length_nil]
  omega

/-- `episode` (RL_based_SDC.py:485): the initial locals followed by the loop.
The returned `LoopSt` carries `experiences`, `pi_list`, `reward_list`, `step`. -/
def episode (cfg : EpCfg) (car0 : CarState) : LoopSt :=
  episodeLoop cfg
    { car := car0, exps := [],
      piL := List.replicate cfg.maxSteps none,
      rwL := List.replicate cfg.maxSteps none,
      step := 0, err := False }

/-- `nansum` over one padded row: `nan` markers (modelled as `none`) are
skipped, every other entry is added. -/
def nansum (l : List (Option ℝ)) : ℝ :=
  l.foldl (fun acc x => match x with | some v => acc + v | none => acc) 0

/-- `.mean()` of a vector. -/
def listMean (l : List ℝ) : ℝ := l.sum / (l.length : ℝ)

/-- `torch.clamp(·, 1e-10, 1)` on one entry; a `nan` marker stays a marker. -/
def clampProb (x : Option ℝ) : Option ℝ :=
  x.map fun v => min (max v 1e-10) 1

/-- `reward_ave = (rewards.nansum(dim=1)/steps).mean()` (RL_based_SDC.py:604). -/
def reward_ave (rewards : List (List (Option ℝ))) (steps : List ℝ) : ℝ :=
  listMean (List.zipWith (fun r s => nansum r / s) rewards steps)

/-- One entry of `Jmt = clampped.log()*(rewards-reward_ave)`
(RL_based_SDC.py:607); the entry is a marker iff the probability or the
reward at that position is a marker (`nan` propagates through `log` and `*`). -/
def JmtEntry (b : ℝ) (p r : Option ℝ) : Option ℝ :=
  match clampProb p, r with
  | some cp, some rv => some (Real.log cp * (rv - b))
  | _, _ => none

/-- `J = (Jmt.nansum(dim=1)/steps).mean()` (RL_based_SDC.py:611), the batch
objective built by `update_policy` before the optimizer step. -/
def Jobj (rewards policies : List (List (Option ℝ))) (steps : List ℝ) : ℝ :=
  listMean (List.zipWith
    (fun row s => nansum row / s)
    (List.zipWith
      (fun prow rrow => List.zipWith (JmtEntry (reward_ave rewards steps)) prow rrow)
      policies rewards)
    steps)

/-- The spec's notion of parallel segments: equal slopes, or both vertical. -/
def seg_parallel (l1 l2 : Seg) : Prop :=
  (l1.1.1 = l1.2.1 ∧ l2.1.1 = l2.2.1) ∨
  (l1.1.1 ≠ l1.2.1 ∧ l2.1.1 ≠ l2.2.1 ∧
    (l1.2.2 - l1.1.2) / (l1.2.1 - l1.1.1) = (l2.2.2 - l2.1.2) / (l2.2.1 - l2.1.1))

end SDC


namespace SDC

/-- C1: one call to `Car.update` with control `(a, steer, dt)` realises the
kinematic transition `x += vx·cos(yaw)·dt`, `y += vx·sin(yaw)·dt`,
`vx += a·dt`, `yaw += steer·dt`, leaves `vy` unchanged, recomputes
`v = sqrt(vx'^2 + vy^2)`, and reports `step_dis` as the Euclidean displacement;
in particular a car at (0,0), yaw 0, vx 1 updated with a=0, steer=0, dt=1 ends
at (1,0) with unchanged yaw and speed and step reward `step_dis = 1`. -/
theorem car_update_model_spec :
    (∀ (c : CarState) (a steer dt : ℝ),
      (Car.update c a steer dt).1.x = c.x + c.vx * Real.cos c.yaw * dt ∧
      (Car.update c a steer dt).1.y = c.y + c.vx * Real.sin c.yaw * dt ∧
      (Car.update c a steer dt).1.vx = c.vx + a * dt ∧
      (Car.update c a steer dt).1.yaw = c.yaw + steer * dt ∧
      (Car.update c a steer dt).1.vy = c.vy ∧
      (Car.update c a steer dt).1.v =
        Real.sqrt ((c.vx + a * dt) ^ 2 + c.vy ^ 2) ∧
      (Car.update c a steer dt).2.1 =
        distance (c.x, c.y)
          (c.x + c.vx * Real.cos c.yaw * dt, c.y + c.vx * Real.sin c.yaw * dt)) ∧
    ((Car.update (Car.init 0 0 0 1) 0 0 1).1.x = 1 ∧
     (Car.update (Car.init 0 0 0 1) 0 0 1).1.y = 0 ∧
     (Car.update (Car.init 0 0 0 1) 0 0 1).1.yaw = 0 ∧
     (Car.update (Car.init 0 0 0 1) 0 0 1).1.v = (Car.init 0 0 0 1).v ∧
     (Car.init 0 0 0 1).v = 1 ∧
     (Car.update (Car.init 0 0 0 1) 0 0 1).2.1 = 1) := by
  constructor
  · intro c a steer dt
    simp [Car.update, Car.model, Car.paramsUpdate, Car.pos]
  · simp [Car.update, Car.model, Car.paramsUpdate, Car.pos, Car.init, distance]

/-- C6: `Car.update` advances the elapsed-time field by `2·dt` (once in
`update` itself and once more inside `_model`), while position, velocity and
yaw are each advanced with `dt` exactly once. -/
theorem car_update_double_time :
    ∀ (c : CarState) (a steer dt : ℝ),
      (Car.update c a steer dt).1.time = c.time + 2 * dt ∧
      (Car.update c a steer dt).1.x = c.x + c.vx * Real.cos c.yaw * dt ∧
      (Car.update c a steer dt).1.y = c.y + c.vx * Real.sin c.yaw * dt ∧
      (Car.update c a steer dt).1.vx = c.vx + a * dt ∧
      (Car.update c a steer dt).1.yaw = c.yaw + steer * dt := by
  intro c a steer dt
  refine ⟨?_, ?_, ?_, ?_, ?_⟩ <;>
    · simp [Car.update, Car.model, Car.paramsUpdate]
      try ring

/-- C7: `crossing` reports a crossing only when the infinite-line intersection
point computed by `cal_crosspoint` passes the tolerance-based on-segment test
for both input segments, and for parallel segments (equal slopes, or both
vertical) it reports no crossing. -/
theorem crossing_on_segment_and_parallel :
    ∀ l1 l2 : Seg,
      ((crossing l1 l2).1 →
        (cal_crosspoint l1 l2).1 ∧
        (crossing l1 l2).2 = (cal_crosspoint l1 l2).2 ∧
        is_online l1 (crossing l1 l2).2 ∧ is_online l2 (crossing l1 l2).2) ∧
      (seg_parallel l1 l2 → ¬ (crossing l1 l2).1) := by
  intro l1 l2
  constructor
  · intro h
    have h' : (cal_crosspoint l1 l2).1 ∧ is_online l1 (cal_crosspoint l1 l2).2 ∧
        is_online l2 (cal_crosspoint l1 l2).2 := h
    exact ⟨h'.1, rfl, h'.2.1, h'.2.2⟩
  · intro hp hc
    have hflag : (cal_crosspoint l1 l2).1 :=
      (show (cal_crosspoint l1 l2).1 ∧ is_online l1 (cal_crosspoint l1 l2).2 ∧
        is_online l2 (cal_crosspoint l1 l2).2 from hc).1
    unfold cal_crosspoint at hflag
    simp only at hflag
    split_ifs at hflag with hA hB hC hD
    · exact hflag
    · rcases hp with ⟨h1, h2⟩ | ⟨h1, h2, h3⟩
      · exact hA ⟨h1, h2⟩
      · exact h1 hB
    · rcases hp with ⟨h1, h2⟩ | ⟨h1, h2, h3⟩
      · exact hB h1
      · exact h2 hC
    · exact hflag
    · rcases hp with ⟨h1, h2⟩ | ⟨h1, h2, h3⟩
      · exact hB h1
      · exact hD h3

/-- Witness for C7 at the spec's example: the horizontal parallel pair
(0,0)-(10,0) and (0,1)-(10,1) is reported as not crossing. -/
theorem crossing_on_segment_and_parallel_witness :
    seg_parallel (((0:ℝ), (0:ℝ)), ((10:ℝ), (0:ℝ))) (((0:ℝ), (1:ℝ)), ((10:ℝ), (1:ℝ))) ∧
    ¬ (crossing (((0:ℝ), (0:ℝ)), ((10:ℝ), (0:ℝ))) (((0:ℝ), (1:ℝ)), ((10:ℝ), (1:ℝ)))).1 := by
  have hp : seg_parallel (((0:ℝ), (0:ℝ)), ((10:ℝ), (0:ℝ)))
      (((0:ℝ), (1:ℝ)), ((10:ℝ), (1:ℝ))) := by
    refine Or.inr ⟨by norm_num, by norm_num, by norm_num⟩
  exact ⟨hp, (crossing_on_segment_and_parallel _ _).2 hp⟩

/-- Invariant of the nearest-point loop: the final distance never exceeds the
initial one, it bounds every candidate distance, and either nothing improved
(the accumulator is returned unchanged) or the stored point is a candidate
attaining the final distance strictly below the initial one. -/
lemma nearestFold_spec (pos : Point) :
    ∀ (points : List Point) (acc : ℝ × Option Point),
      (nearestFold pos acc points).1 ≤ acc.1 ∧
      (∀ q ∈ points, (nearestFold pos acc points).1 ≤ distance pos q) ∧
      (nearestFold pos acc points = acc ∨
        ∃ p ∈ points, (nearestFold pos acc points).2 = some p ∧
          distance pos p = (nearestFold pos acc points).1 ∧
          (nearestFold pos acc points).1 < acc.1) := by
  intro points
  induction points with
  | nil => intro acc; exact ⟨le_refl _, by simp, Or.inl rfl⟩
  | cons p ps ih =>
    intro acc
    by_cases h : distance pos p < acc.1
    · have hrec := ih (distance pos p, some p)
      have heq : nearestFold pos acc (p :: ps) = nearestFold pos (distance pos p, some p) ps := by
        simp only [nearestFold, if_pos h]
      rw [heq]
      refine ⟨le_trans hrec.1 (le_of_lt h), ?_, ?_⟩
      · intro q hq
        rcases List.mem_cons.mp hq with rfl | hq
        · exact hrec.1
        · exact hrec.2.1 q hq
      · rcases hrec.2.2 with heq2 | ⟨p2, hp2, h1, h2, h3⟩
        · refine Or.inr ⟨p, List.mem_cons_self _ _, ?_, ?_, ?_⟩
          · rw [heq2]
          · rw [heq2]
          · rw [heq2]; exact h
        · exact Or.inr ⟨p2, List.mem_cons_of_mem _ hp2, h1, h2, lt_trans h3 h⟩
    · have hrec := ih acc
      have heq : nearestFold pos acc (p :: ps) = nearestFold pos acc ps := by
        simp only [nearestFold, if_neg h]
      rw [heq]
      refine ⟨hrec.1, ?_, ?_⟩
      · intro q hq
        rcases List.mem_cons.mp hq with rfl | hq
        · exact le_trans hrec.1 (not_lt.mp h)
        · exact hrec.2.1 q hq
      · rcases hrec.2.2 with heq2 | ⟨p2, hp2, h1, h2, h3⟩
        · exact Or.inl heq2
        · exact Or.inr ⟨p2, List.mem_cons_of_mem _ hp2, h1, h2, h3⟩

/-- Reading of a single ray: with no hit it is the probe's far endpoint,
no flag, distance equal to the range; with a hit and a strictly closer
crossing point, the flag is set, the reported distance is minimal among the
crossing points, and the stored endpoint attains it. -/
lemma rayStep_spec (lines : List Seg) (pos : Point) (lineLen : ℝ) (prev : Option Point)
    (angle : ℝ) :
    (¬ (MAP.is_collision lines (probeSeg pos lineLen angle)).1 →
      rayStep lines pos lineLen prev angle =
        (some (probeSeg pos lineLen angle).1, False, lineLen)) ∧
    ((MAP.is_collision lines (probeSeg pos lineLen angle)).1 →
      (∃ p ∈ (MAP.is_collision lines (probeSeg pos lineLen angle)).2,
          distance pos p < lineLen) →
      (rayStep lines pos lineLen prev angle).2.1 ∧
      (rayStep lines pos lineLen prev angle).2.2 ≤ lineLen ∧
      (∀ q ∈ (MAP.is_collision lines (probeSeg pos lineLen angle)).2,
        (rayStep lines pos lineLen prev angle).2.2 ≤ distance pos q) ∧
      ∃ p ∈ (MAP.is_collision lines (probeSeg pos lineLen angle)).2,
        (rayStep lines pos lineLen prev angle).1 = some p ∧
        distance pos p = (rayStep lines pos lineLen prev angle).2.2) := by
  constructor
  · intro h
    simp only [rayStep]
    rw [if_neg h]
  · intro h hex
    have hray : rayStep lines pos lineLen prev angle =
        ((nearestFold pos (lineLen, prev)
            (MAP.is_collision lines (probeSeg pos lineLen angle)).2).2, True,
         (nearestFold pos (lineLen, prev)
            (MAP.is_collision lines (probeSeg pos lineLen angle)).2).1) := by
      simp only [rayStep]
      rw [if_pos h]
    obtain ⟨hle, hall, hcase⟩ :=
      nearestFold_spec pos (MAP.is_collision lines (probeSeg pos lineLen angle)).2 (lineLen, prev)
    rw [hray]
    obtain ⟨p0, hp0, hp0lt⟩ := hex
    rcases hcase with heq | ⟨p, hp, h1, h2, h3⟩
    · exfalso
      have hb := hall p0 hp0
      rw [heq] at hb
      exact absurd (lt_of_le_of_lt hb hp0lt) (lt_irrefl _)
    · exact ⟨trivial, hle, hall, p, hp, h1, h2⟩

/-- The sensor array produces one reading per configured ray angle. -/
lemma make_line_length (lines : List Seg) (pos : Point) (yaw lineLen : ℝ) :
    ∀ (angles : List ℝ) (prev : Option Point),
      (LiDAR.make_line lines pos yaw lineLen angles prev).length = angles.length := by
  intro angles
  induction angles with
  | nil => intro prev; rfl
  | cons a rest ih =>
    intro prev
    simp only [LiDAR.make_line, List.length_cons]
    rw [ih]

/-- C4 (amended): every reading produced by `LiDAR.make_line` comes from one of
the configured ray angles; if that ray's probe crosses no wall, the reading is
the probe's far endpoint with `hit = false` and distance exactly `line_len`;
if the probe crosses at least one wall and some crossing point lies strictly
within the range, the reported distance is the minimum of the crossing-point
distances and the reported endpoint is a crossing point attaining it.  (The
strictly-within qualification is forced by the counterexample: a hit whose
crossing points all lie at distance ≥ `line_len` leaves the endpoint variable
unassigned.) -/
theorem make_line_reading_spec :
    ∀ (lines : List Seg) (pos : Point) (yaw lineLen : ℝ) (angles : List ℝ)
      (prev : Option Point) (r : Option Point × Prop × ℝ),
      r ∈ LiDAR.make_line lines pos yaw lineLen angles prev →
      ∃ a ∈ angles,
        (¬ (MAP.is_collision lines (probeSeg pos lineLen (a + yaw))).1 →
          r = (some (probeSeg pos lineLen (a + yaw)).1, False, lineLen)) ∧
        ((MAP.is_collision lines (probeSeg pos lineLen (a + yaw))).1 →
          (∃ p ∈ (MAP.is_collision lines (probeSeg pos lineLen (a + yaw))).2,
              distance pos p < lineLen) →
          r.2.1 ∧ r.2.2 ≤ lineLen ∧
          (∀ q ∈ (MAP.is_collision lines (probeSeg pos lineLen (a + yaw))).2,
            r.2.2 ≤ distance pos q) ∧
          ∃ p ∈ (MAP.is_collision lines (probeSeg pos lineLen (a + yaw))).2,
            r.1 = some p ∧ distance pos p = r.2.2) := by
  intro lines pos yaw lineLen angles
  induction angles with
  | nil =>
    intro prev r hr
    simp [LiDAR.make_line] at hr
  | cons a rest ih =>
    intro prev r hr
    have hcons : LiDAR.make_line lines pos yaw lineLen (a :: rest) prev =
        rayStep lines pos lineLen prev (a + yaw) ::
          LiDAR.make_line lines pos yaw lineLen rest
            (rayStep lines pos lineLen prev (a + yaw)).1 := rfl
    rw [hcons] at hr
    rcases List.mem_cons.mp hr with rfl | hr
    · obtain ⟨hno, hyes⟩ := rayStep_spec lines pos lineLen prev (a + yaw)
      exact ⟨a, List.mem_cons_self _ _, hno, hyes⟩
    · obtain ⟨a2, ha2, h1, h2⟩ := ih _ r hr
      exact ⟨a2, List.mem_cons_of_mem _ ha2, h1, h2⟩

/-- A vertical wall crossing the reference probe exactly at its far endpoint. -/
def wall30 : Seg := (((30 : ℝ), (-1 : ℝ)), ((30 : ℝ), (1 : ℝ)))

/-- A vertical wall crossing the reference probe strictly inside its range. -/
def wall5 : Seg := (((5 : ℝ), (-1 : ℝ)), ((5 : ℝ), (1 : ℝ)))

/-- The probe of a ray cast from (0,0) along the positive x-axis with range 30. -/
def probe30 : Seg := (((30 : ℝ), (0 : ℝ)), ((0 : ℝ), (0 : ℝ)))

lemma probeSeg_eval : probeSeg ((0 : ℝ), (0 : ℝ)) 30 0 = probe30 := by
  unfold probeSeg probe30
  norm_num

lemma distance_30 : distance ((0 : ℝ), (0 : ℝ)) ((30 : ℝ), (0 : ℝ)) = 30 := by
  unfold distance
  rw [show ((0 : ℝ) - 30) ^ 2 + ((0 : ℝ) - 0) ^ 2 = 30 ^ 2 by norm_num]
  exact Real.sqrt_sq (by norm_num)

lemma distance_5 : distance ((0 : ℝ), (0 : ℝ)) ((5 : ℝ), (0 : ℝ)) = 5 := by
  unfold distance
  rw [show ((0 : ℝ) - 5) ^ 2 + ((0 : ℝ) - 0) ^ 2 = 5 ^ 2 by norm_num]
  exact Real.sqrt_sq (by norm_num)

lemma cal_crosspoint_wall30 : cal_crosspoint wall30 probe30 = (True, ((30 : ℝ), (0 : ℝ))) := by
  unfold cal_crosspoint wall30 probe30
  norm_num

lemma is_online_wall30 : is_online wall30 ((30 : ℝ), (0 : ℝ)) := by
  unfold is_online wall30
  norm_num

lemma is_online_probe30_at30 : is_online probe30 ((30 : ℝ), (0 : ℝ)) := by
  unfold is_online probe30
  norm_num

lemma crossing_wall30_flag : (crossing wall30 probe30).1 := by
  show (cal_crosspoint wall30 probe30).1 ∧
      is_online wall30 (cal_crosspoint wall30 probe30).2 ∧
      is_online probe30 (cal_crosspoint wall30 probe30).2
  rw [cal_crosspoint_wall30]
  exact ⟨trivial, is_online_wall30, is_online_probe30_at30⟩

lemma crossing_wall30_point : (crossing wall30 probe30).2 = ((30 : ℝ), (0 : ℝ)) := by
  show (cal_crosspoint wall30 probe30).2 = _
  rw [cal_crosspoint_wall30]

lemma is_collision_wall30 : MAP.is_collision [wall30] probe30 = (True, [((30 : ℝ), (0 : ℝ))]) := by
  unfold MAP.is_collision
  simp only [List.foldl_cons, List.foldl_nil]
  rw [if_pos crossing_wall30_flag, crossing_wall30_point]
  simp

lemma rayStep_wall30 : rayStep [wall30] ((0 : ℝ), (0 : ℝ)) 30 none 0 = (none, True, 30) := by
  simp only [rayStep, probeSeg_eval, is_collision_wall30, nearestFold, distance_30]
  norm_num

lemma make_line_wall30 :
    LiDAR.make_line [wall30] ((0 : ℝ), (0 : ℝ)) 0 30 [0] none = [(none, True, (30 : ℝ))] := by
  show [rayStep [wall30] ((0 : ℝ), (0 : ℝ)) 30 none (0 + 0)] = _
  rw [zero_add, rayStep_wall30]

lemma cal_crosspoint_wall5 : cal_crosspoint wall5 probe30 = (True, ((5 : ℝ), (0 : ℝ))) := by
  unfold cal_crosspoint wall5 probe30
  norm_num

lemma is_online_wall5 : is_online wall5 ((5 : ℝ), (0 : ℝ)) := by
  unfold is_online wall5
  norm_num

lemma is_online_probe30_at5 : is_online probe30 ((5 : ℝ), (0 : ℝ)) := by
  unfold is_online probe30
  norm_num
  rw [Real.sign_of_pos (by norm_num : (0 : ℝ) < 25), Real.sign_of_pos (by norm_num : (0 : ℝ) < 5)]

lemma crossing_wall5_flag : (crossing wall5 probe30).1 := by
  show (cal_crosspoint wall5 probe30).1 ∧
      is_online wall5 (cal_crosspoint wall5 probe30).2 ∧
      is_online probe30 (cal_crosspoint wall5 probe30).2
  rw [cal_crosspoint_wall5]
  exact ⟨trivial, is_online_wall5, is_online_probe30_at5⟩

lemma crossing_wall5_point : (crossing wall5 probe30).2 = ((5 : ℝ), (0 : ℝ)) := by
  show (cal_crosspoint wall5 probe30).2 = _
  rw [cal_crosspoint_wall5]

lemma is_collision_wall5 : MAP.is_collision [wall5] probe30 = (True, [((5 : ℝ), (0 : ℝ))]) := by
  unfold MAP.is_collision
  simp only [List.foldl_cons, List.foldl_nil]
  rw [if_pos crossing_wall5_flag, crossing_wall5_point]
  simp

lemma rayStep_wall5 :
    rayStep [wall5] ((0 : ℝ), (0 : ℝ)) 30 none 0 = (some ((5 : ℝ), (0 : ℝ)), True, 5) := by
  simp only [rayStep, probeSeg_eval, is_collision_wall5, nearestFold, distance_5]
  norm_num

lemma make_line_wall5 :
    LiDAR.make_line [wall5] ((0 : ℝ), (0 : ℝ)) 0 30 [0] none =
      [(some ((5 : ℝ), (0 : ℝ)), True, (5 : ℝ))] := by
  show [rayStep [wall5] ((0 : ℝ), (0 : ℝ)) 30 none (0 + 0)] = _
  rw [zero_add, rayStep_wall5]

/-- C4 counterexample: with the single wall x = 30, the probe of the ray cast
from (0,0) along the x-axis with range 30 crosses the wall exactly at the
probe's far endpoint.  `make_line` reports `hit = true` with distance 30, but
the reported endpoint is the never-assigned loop variable `point` (modelled
as `none`; an `UnboundLocalError` in the Python source), not a crossing point
attaining the minimum distance. -/
theorem make_line_stale_endpoint_cex :
    LiDAR.make_line [wall30] ((0 : ℝ), (0 : ℝ)) 0 30 [0] none = [(none, True, (30 : ℝ))] ∧
    (MAP.is_collision [wall30] (probeSeg ((0 : ℝ), (0 : ℝ)) 30 (0 + 0))).1 ∧
    (MAP.is_collision [wall30] (probeSeg ((0 : ℝ), (0 : ℝ)) 30 (0 + 0))).2 =
      [((30 : ℝ), (0 : ℝ))] ∧
    distance ((0 : ℝ), (0 : ℝ)) ((30 : ℝ), (0 : ℝ)) = 30 := by
  refine ⟨make_line_wall30, ?_, ?_, distance_30⟩
  · rw [zero_add, probeSeg_eval, is_collision_wall30]
    trivial
  · rw [zero_add, probeSeg_eval, is_collision_wall30]

/-- Witness for C4 at a wall strictly inside the range: the probe from (0,0)
along the x-axis with range 30 meets the wall x = 5 at (5,0) at distance 5;
the reading stores that point, the hit flag and that distance, and the amended
per-ray specification applies to it. -/
theorem make_line_reading_spec_witness :
    ((some ((5 : ℝ), (0 : ℝ)), True, (5 : ℝ)) : Option Point × Prop × ℝ) ∈
        LiDAR.make_line [wall5] ((0 : ℝ), (0 : ℝ)) 0 30 [0] none ∧
    ∃ a ∈ [(0 : ℝ)],
      (¬ (MAP.is_collision [wall5] (probeSeg ((0 : ℝ), (0 : ℝ)) 30 (a + 0))).1 →
        ((some ((5 : ℝ), (0 : ℝ)), True, (5 : ℝ)) : Option Point × Prop × ℝ) =
          (some (probeSeg ((0 : ℝ), (0 : ℝ)) 30 (a + 0)).1, False, (30 : ℝ))) ∧
      ((MAP.is_collision [wall5] (probeSeg ((0 : ℝ), (0 : ℝ)) 30 (a + 0))).1 →
        (∃ p ∈ (MAP.is_collision [wall5] (probeSeg ((0 : ℝ), (0 : ℝ)) 30 (a + 0))).2,
            distance ((0 : ℝ), (0 : ℝ)) p < 30) →
        ((some ((5 : ℝ), (0 : ℝ)), True, (5 : ℝ)) : Option Point × Prop × ℝ).2.1 ∧
        ((some ((5 : ℝ), (0 : ℝ)), True, (5 : ℝ)) : Option Point × Prop × ℝ).2.2 ≤ 30 ∧
        (∀ q ∈ (MAP.is_collision [wall5] (probeSeg ((0 : ℝ), (0 : ℝ)) 30 (a + 0))).2,
          ((some ((5 : ℝ), (0 : ℝ)), True, (5 : ℝ)) : Option Point × Prop × ℝ).2.2 ≤
            distance ((0 : ℝ), (0 : ℝ)) q) ∧
        ∃ p ∈ (MAP.is_collision [wall5] (probeSeg ((0 : ℝ), (0 : ℝ)) 30 (a + 0))).2,
          ((some ((5 : ℝ), (0 : ℝ)), True, (5 : ℝ)) : Option Point × Prop × ℝ).1 = some p ∧
          distance ((0 : ℝ), (0 : ℝ)) p =
            ((some ((5 : ℝ), (0 : ℝ)), True, (5 : ℝ)) : Option Point × Prop × ℝ).2.2) := by
  have hm : ((some ((5 : ℝ), (0 : ℝ)), True, (5 : ℝ)) : Option Point × Prop × ℝ) ∈
      LiDAR.make_line [wall5] ((0 : ℝ), (0 : ℝ)) 0 30 [0] none := by
    rw [make_line_wall5]
    exact List.mem_singleton.mpr rfl
  exact ⟨hm, make_line_reading_spec [wall5] ((0 : ℝ), (0 : ℝ)) 0 30 [0] none _ hm⟩

/-- C10 (amended): whenever `MAP.is_collision` reports a hit for a sensor probe
and at least one returned crossing point lies strictly closer than the maximum
range, the nearest-point selection assigns the reported endpoint to one of the
returned crossing points.  (The unqualified totality claim is refuted by the
counterexample: a hit whose crossing points all lie at distance ≥ `line_len`
leaves the endpoint variable unassigned.) -/
theorem ray_nearest_point_assigned :
    ∀ (lines : List Seg) (pos : Point) (lineLen : ℝ) (prev : Option Point) (angle : ℝ),
      (MAP.is_collision lines (probeSeg pos lineLen angle)).1 →
      (∃ p ∈ (MAP.is_collision lines (probeSeg pos lineLen angle)).2,
          distance pos p < lineLen) →
      ∃ p ∈ (MAP.is_collision lines (probeSeg pos lineLen angle)).2,
        (rayStep lines pos lineLen prev angle).1 = some p := by
  intro lines pos lineLen prev angle h hex
  obtain ⟨-, -, -, p, hp, h1, -⟩ := (rayStep_spec lines pos lineLen prev angle).2 h hex
  exact ⟨p, hp, h1⟩

/-- C10 counterexample: the probe from (0,0) to (30,0) hits the wall x = 30
with the unique crossing point (30,0) at distance exactly 30 = `line_len`:
no crossing point is strictly closer than the range, and the endpoint variable
is never assigned (`none` in the model; an `UnboundLocalError` in the source). -/
theorem ray_endpoint_unassigned_cex :
    (MAP.is_collision [wall30] probe30).1 ∧
    (MAP.is_collision [wall30] probe30).2 = [((30 : ℝ), (0 : ℝ))] ∧
    distance ((0 : ℝ), (0 : ℝ)) ((30 : ℝ), (0 : ℝ)) = 30 ∧
    (rayStep [wall30] ((0 : ℝ), (0 : ℝ)) 30 none 0).1 = none := by
  refine ⟨?_, ?_, distance_30, ?_⟩
  · rw [is_collision_wall30]
    trivial
  · rw [is_collision_wall30]
  · rw [rayStep_wall30]

/-- Witness for C10 at the wall x = 5: the hit has a crossing point at
distance 5 < 30, and the reported endpoint is indeed assigned to one of the
crossing points. -/
theorem ray_nearest_point_assigned_witness :
    (MAP.is_collision [wall5] (probeSeg ((0 : ℝ), (0 : ℝ)) 30 0)).1 ∧
    (∃ p ∈ (MAP.is_collision [wall5] (probeSeg ((0 : ℝ), (0 : ℝ)) 30 0)).2,
      distance ((0 : ℝ), (0 : ℝ)) p < 30) ∧
    ∃ p ∈ (MAP.is_collision [wall5] (probeSeg ((0 : ℝ), (0 : ℝ)) 30 0)).2,
      (rayStep [wall5] ((0 : ℝ), (0 : ℝ)) 30 none 0).1 = some p := by
  have h1 : (MAP.is_collision [wall5] (probeSeg ((0 : ℝ), (0 : ℝ)) 30 0)).1 := by
    rw [probeSeg_eval, is_collision_wall5]
    trivial
  have h2 : ∃ p ∈ (MAP.is_collision [wall5] (probeSeg ((0 : ℝ), (0 : ℝ)) 30 0)).2,
      distance ((0 : ℝ), (0 : ℝ)) p < 30 := by
    rw [probeSeg_eval, is_collision_wall5]
    refine ⟨((5 : ℝ), (0 : ℝ)), List.mem_singleton.mpr rfl, ?_⟩
    rw [distance_5]
    norm_num
  exact ⟨h1, h2, ray_nearest_point_assigned [wall5] ((0 : ℝ), (0 : ℝ)) 30 none 0 h1 h2⟩

lemma stepOnce_exps (cfg : EpCfg) (st : LoopSt) :
    (stepOnce cfg st).exps = st.exps ++ [stepRecOf cfg st] := rfl

lemma stepRecOf_done (cfg : EpCfg) (st : LoopSt) : (stepRecOf cfg st).done = epDone cfg st := rfl

lemma stepRecOf_reward (cfg : EpCfg) (st : LoopSt) :
    (stepRecOf cfg st).reward = epReward cfg st := rfl

lemma stepOnce_step (cfg : EpCfg) (st : LoopSt) :
    (stepOnce cfg st).step = if epWriteOk st then st.step + 1 else st.step := rfl

lemma stepOnce_piL (cfg : EpCfg) (st : LoopSt) :
    (stepOnce cfg st).piL = st.piL.set st.step (some (cfg.prob st.step)) := rfl

lemma stepOnce_rwL (cfg : EpCfg) (st : LoopSt) :
    (stepOnce cfg st).rwL =
      if st.step < st.piL.length then st.rwL.set st.step (some (epReward cfg st))
      else st.rwL := rfl

lemma stepOnce_err (cfg : EpCfg) (st : LoopSt) :
    (stepOnce cfg st).err = (st.err ∨ ¬ epWriteOk st) := rfl

lemma stepOnce_length (cfg : EpCfg) (st : LoopSt) :
    (stepOnce cfg st).exps.length = st.exps.length + 1 := by
  rw [stepOnce_exps]
  simp

/-- Unfolding equation of the rollout loop. -/
lemma episodeLoop_unfold (cfg : EpCfg) (st : LoopSt) :
    episodeLoop cfg st =
      if (stepOnce cfg st).err then stepOnce cfg st
      else if epDone cfg st then stepOnce cfg st
      else episodeLoop cfg (stepOnce cfg st) := by
  rw [episodeLoop]
  by_cases he : (stepOnce cfg st).err
  · rw [dif_pos he, if_pos he]
  · rw [dif_neg he, if_neg he]
    by_cases hc : epDone cfg st
    · rw [dif_pos hc, if_pos hc]
    · rw [dif_neg hc, if_neg hc]

/-- Elimination principle for the rollout loop: a relation between the entry
state and the loop's result holds as soon as it holds at an iteration that
raises, at the final (done) iteration, and is propagated backwards over
continuing iterations. -/
lemma episodeLoop_elim (cfg : EpCfg) (Q : LoopSt → LoopSt → Prop)
    (herr : ∀ st, (stepOnce cfg st).err → Q st (stepOnce cfg st))
    (hdone : ∀ st, ¬ (stepOnce cfg st).err → epDone cfg st → Q st (stepOnce cfg st))
    (hstep : ∀ st, ¬ (stepOnce cfg st).err → ¬ epDone cfg st →
      Q (stepOnce cfg st) (episodeLoop cfg (stepOnce cfg st)) →
      Q st (episodeLoop cfg (stepOnce cfg st))) :
    ∀ st, Q st (episodeLoop cfg st) := by
  have key : ∀ n st, cfg.maxSteps - st.exps.length ≤ n → Q st (episodeLoop cfg st) := by
    intro n
    induction n with
    | zero =>
      intro st hn
      by_cases he : (stepOnce cfg st).err
      · rw [episodeLoop_unfold, if_pos he]
        exact herr st he
      · have hd : epDone cfg st := by
          refine Or.inr ?_
          unfold epBudget
          omega
        rw [episodeLoop_unfold, if_neg he, if_pos hd]
        exact hdone st he hd
    | succ n ih =>
      intro st hn
      by_cases he : (stepOnce cfg st).err
      · rw [episodeLoop_unfold, if_pos he]
        exact herr st he
      · by_cases hd : epDone cfg st
        · rw [episodeLoop_unfold, if_neg he, if_pos hd]
          exact hdone st he hd
        · rw [episodeLoop_unfold, if_neg he, if_neg hd]
          refine hstep st he hd (ih _ ?_)
          have hb : ¬ epBudget cfg st := fun hb => hd (Or.inr hb)
          unfold epBudget at hb
          have hlen := stepOnce_length cfg st
          omega
  intro st
  exact key (cfg.maxSteps - st.exps.length) st (le_refl _)

/-- Invariant preservation over the rollout loop. -/
lemma episodeLoop_inv (cfg : EpCfg) (Inv : LoopSt → Prop)
    (pres : ∀ st, Inv st → Inv (stepOnce cfg st)) :
    ∀ st, Inv st → Inv (episodeLoop cfg st) := by
  refine episodeLoop_elim cfg (fun st out => Inv st → Inv out) ?_ ?_ ?_
  · intro st _ hI
    exact pres st hI
  · intro st _ _ hI
    exact pres st hI
  · intro st _ _ ih hI
    exact ih (pres st hI)

/-- The states the rollout actually passes through: no pending `IndexError`,
padded rows of length `maxSteps`, and the step counter equal to the number of
recorded steps. -/
def epRun (cfg : EpCfg) (st : LoopSt) : Prop :=
  ¬ st.err ∧ st.piL.length = cfg.maxSteps ∧ st.rwL.length = cfg.maxSteps ∧
    st.step = st.exps.length

lemma epRun_stepOnce (cfg : EpCfg) (st : LoopSt) (h : epRun cfg st)
    (he : ¬ (stepOnce cfg st).err) : epRun cfg (stepOnce cfg st) := by
  obtain ⟨h1, h2, h3, h4⟩ := h
  have hok : epWriteOk st := by
    by_contra hok
    apply he
    rw [stepOnce_err]
    exact Or.inr hok
  refine ⟨he, ?_, ?_, ?_⟩
  · rw [stepOnce_piL, List.length_set, h2]
  · rw [stepOnce_rwL]
    split
    · rw [List.length_set, h3]
    · exact h3
  · rw [stepOnce_step, if_pos hok, stepOnce_length, h4]

/-- On a reachable state an `IndexError` can only fire when the step counter
has already reached the budget, so the recorded done flag is set anyway. -/
lemma epRun_err_done (cfg : EpCfg) (st : LoopSt) (h : epRun cfg st)
    (he : (stepOnce cfg st).err) : epDone cfg st := by
  obtain ⟨h1, h2, h3, h4⟩ := h
  rw [stepOnce_err] at he
  rcases he with he | he
  · exact absurd he h1
  · refine Or.inr ?_
    unfold epBudget
    unfold epWriteOk at he
    rw [h2, h3] at he
    omega

/-- The records appended by the loop from a reachable state: a (possibly
empty) prefix of non-final records with `done` unset, followed by exactly one
final record with `done` set — the loop never runs another iteration after
`done` is recorded. -/
lemma episodeLoop_exps_decomp (cfg : EpCfg) :
    ∀ st, epRun cfg st →
      ∃ l1 last, (episodeLoop cfg st).exps = st.exps ++ l1 ++ [last] ∧
        (∀ x ∈ l1, ¬ x.done) ∧ last.done := by
  refine episodeLoop_elim cfg
    (fun st out => epRun cfg st →
      ∃ l1 last, out.exps = st.exps ++ l1 ++ [last] ∧
        (∀ x ∈ l1, ¬ x.done) ∧ last.done) ?_ ?_ ?_
  · intro st he hrun
    refine ⟨[], stepRecOf cfg st, ?_, by simp, epRun_err_done cfg st hrun he⟩
    rw [stepOnce_exps]
    simp
  · intro st he hd hrun
    refine ⟨[], stepRecOf cfg st, ?_, by simp, hd⟩
    rw [stepOnce_exps]
    simp
  · intro st he hd ih hrun
    obtain ⟨l1, last, h1, h2, h3⟩ := ih (epRun_stepOnce cfg st hrun he)
    refine ⟨stepRecOf cfg st :: l1, last, ?_, ?_, h3⟩
    · rw [h1, stepOnce_exps]
      simp
    · intro x hx
      rcases List.mem_cons.mp hx with rfl | hx
      · exact hd
      · exact h2 x hx

/-- With no walls and a not-yet-exhausted budget, the loop raises no
`IndexError` and runs until the step budget fires, with final log length and
step counter exactly `maxSteps`. -/
lemma episodeLoop_nowalls (cfg : EpCfg) (hw : cfg.lines = []) :
    ∀ st, epRun cfg st → st.exps.length < cfg.maxSteps →
      ¬ (episodeLoop cfg st).err ∧
      (episodeLoop cfg st).exps.length = cfg.maxSteps ∧
      (episodeLoop cfg st).step = cfg.maxSteps := by
  refine episodeLoop_elim cfg
    (fun st out => epRun cfg st → st.exps.length < cfg.maxSteps →
      ¬ out.err ∧ out.exps.length = cfg.maxSteps ∧ out.step = cfg.maxSteps) ?_ ?_ ?_
  · intro st he hrun hlt
    exfalso
    obtain ⟨h1, h2, h3, h4⟩ := hrun
    rw [stepOnce_err] at he
    rcases he with he | he
    · exact h1 he
    · refine he ⟨?_, ?_⟩
      · rw [h2, h4]
        exact hlt
      · rw [h3, h4]
        exact hlt
  · intro st he hd hrun hlt
    obtain ⟨h1, h2, h3, h4⟩ := hrun
    have hok : epWriteOk st := by
      by_contra hok
      apply he
      rw [stepOnce_err]
      exact Or.inr hok
    have hcol : ¬ epCollision cfg st := by
      unfold epCollision
      rw [hw]
      unfold MAP.is_collision
      simp
    have hb : epBudget cfg st := hd.resolve_left hcol
    unfold epBudget at hb
    refine ⟨?_, ?_, ?_⟩
    · rw [stepOnce_err]
      intro hcon
      rcases hcon with hcon | hcon
      · exact h1 hcon
      · exact hcon hok
    · rw [stepOnce_length]
      omega
    · rw [stepOnce_step, if_pos hok, h4]
      omega
  · intro st he hd ih hrun hlt
    have hb : ¬ epBudget cfg st := fun hb => hd (Or.inr hb)
    unfold epBudget at hb
    refine ih (epRun_stepOnce cfg st hrun he) ?_
    rw [stepOnce_length]
    omega

/-- The rollout's initial state is reachable. -/
lemma epRun_init (cfg : EpCfg) (car0 : CarState) :
    epRun cfg
      { car := car0, exps := [], piL := List.replicate cfg.maxSteps none,
        rwL := List.replicate cfg.maxSteps none, step := 0, err := False } := by
  refine ⟨fun h => h, ?_, ?_, rfl⟩
  · simp
  · simp

/-- C2 (amended): with an obstacle map containing no wall segments and a
positive step budget, the rollout raises no IndexError and terminates
normally through the step-budget branch — the collision predicate is
unsatisfiable and only the final record carries the done flag — returning a
log and episode length of exactly `max_number_of_steps`.  (The positivity
hypothesis is forced by the counterexample: at `max_number_of_steps = 0` the
write `pi_list[step]` raises an uncaught IndexError and no log is returned.) -/
theorem episode_nowalls_timeout (cfg : EpCfg) (car0 : CarState)
    (hw : cfg.lines = []) (h1 : 1 ≤ cfg.maxSteps) :
    ¬ (episode cfg car0).err ∧
    (episode cfg car0).exps.length = cfg.maxSteps ∧
    (episode cfg car0).step = cfg.maxSteps ∧
    (∀ seg : Seg, ¬ (MAP.is_collision cfg.lines seg).1) ∧
    ∃ l1 last, (episode cfg car0).exps = l1 ++ [last] ∧
      (∀ x ∈ l1, ¬ x.done) ∧ last.done := by
  have hmain := episodeLoop_nowalls cfg hw
    { car := car0, exps := [], piL := List.replicate cfg.maxSteps none,
      rwL := List.replicate cfg.maxSteps none, step := 0, err := False }
    (epRun_init cfg car0) (by simpa using h1)
  refine ⟨hmain.1, hmain.2.1, hmain.2.2, ?_, ?_⟩
  · intro seg
    rw [hw]
    unfold MAP.is_collision
    simp
  · obtain ⟨l1, last, hdec, h2, h3⟩ := episodeLoop_exps_decomp cfg
      { car := car0, exps := [], piL := List.replicate cfg.maxSteps none,
        rwL := List.replicate cfg.maxSteps none, step := 0, err := False }
      (epRun_init cfg car0)
    refine ⟨l1, last, ?_, h2, h3⟩
    unfold episode
    simpa using hdec

/-- Concrete rollout configuration with no walls, no sensor rays and zero step
budget, with the policy oracle constantly replying `(0, 0, 0)`. -/
def cexCfg : EpCfg :=
  { lines := [], anglesStd := [], lineLen := 30, maxSteps := 0,
    act := fun _ _ => (0, 0, 0), prob := fun _ => 0 }

/-- A car starting at the origin at rest. -/
def cexCar : CarState := Car.init 0 0 0 0

/-- C2 counterexample: with no walls and configured step budget
`max_number_of_steps = 0`, the loop body still runs once (the budget test
compares `0 >= 0 - 1`), and the write `pi_list[step]` at index 0 into the
size-0 tensor (RL_based_SDC.py:575) raises an uncaught IndexError: the
rollout aborts with an error instead of returning a step log of the
configured length 0. -/
theorem episode_zero_budget_cex :
    cexCfg.maxSteps = 0 ∧ (episode cexCfg cexCar).err := by
  have herr : (stepOnce cexCfg
      { car := cexCar, exps := [], piL := List.replicate cexCfg.maxSteps none,
        rwL := List.replicate cexCfg.maxSteps none, step := 0, err := False }).err := by
    rw [stepOnce_err]
    refine Or.inr ?_
    intro hok
    have hlt := hok.1
    simp [cexCfg] at hlt
  have he : episode cexCfg cexCar = stepOnce cexCfg
      { car := cexCar, exps := [], piL := List.replicate cexCfg.maxSteps none,
        rwL := List.replicate cexCfg.maxSteps none, step := 0, err := False } := by
    unfold episode
    rw [episodeLoop_unfold, if_pos herr]
  refine ⟨rfl, ?_⟩
  rw [he]
  exact herr

/-- The counterexample configuration with the budget raised to one step. -/
def witCfg : EpCfg :=
  { lines := [], anglesStd := [], lineLen := 30, maxSteps := 1,
    act := fun _ _ => (0, 0, 0), prob := fun _ => 0 }

/-- Witness for C2 with budget 1: the no-wall rollout raises no error and
produces exactly one record and episode length 1, the final record being the
only done one. -/
theorem episode_nowalls_timeout_witness :
    witCfg.lines = [] ∧ 1 ≤ witCfg.maxSteps ∧
    (¬ (episode witCfg cexCar).err ∧
     (episode witCfg cexCar).exps.length = witCfg.maxSteps ∧
     (episode witCfg cexCar).step = witCfg.maxSteps ∧
     (∀ seg : Seg, ¬ (MAP.is_collision witCfg.lines seg).1) ∧
     ∃ l1 last, (episode witCfg cexCar).exps = l1 ++ [last] ∧
       (∀ x ∈ l1, ¬ x.done) ∧ last.done) :=
  ⟨rfl, Nat.le_refl 1, episode_nowalls_timeout witCfg cexCar rfl (Nat.le_refl 1)⟩

/-- C5: the collision reward constant is 0; every loop iteration appends
exactly one record, whose reward is overridden to `collision_reward` with the
done flag set whenever the step's displacement segment crosses a wall of the
map, and whose reward is the step's Euclidean displacement `step_dis` when no
collision occurs; and in any rollout only the final record carries the done
flag — no further steps are executed after DONE is set. -/
theorem episode_collision_semantics :
    collision_reward = 0 ∧
    (∀ (cfg : EpCfg) (st : LoopSt),
      (stepOnce cfg st).exps = st.exps ++ [stepRecOf cfg st] ∧
      (epCollision cfg st →
        (stepRecOf cfg st).reward = collision_reward ∧ (stepRecOf cfg st).done) ∧
      (¬ epCollision cfg st → (stepRecOf cfg st).reward = (epUpd cfg st).2.1)) ∧
    (∀ (cfg : EpCfg) (car0 : CarState),
      ∃ l1 last, (episode cfg car0).exps = l1 ++ [last] ∧
        (∀ x ∈ l1, ¬ x.done) ∧ last.done) := by
  refine ⟨rfl, ?_, ?_⟩
  · intro cfg st
    refine ⟨rfl, ?_, ?_⟩
    · intro hc
      constructor
      · rw [stepRecOf_reward]
        unfold epReward
        rw [if_pos hc]
      · rw [stepRecOf_done]
        exact Or.inl hc
    · intro hc
      rw [stepRecOf_reward]
      unfold epReward
      rw [if_neg hc]
  · intro cfg car0
    obtain ⟨l1, last, hdec, h2, h3⟩ := episodeLoop_exps_decomp cfg
      { car := car0, exps := [], piL := List.replicate cfg.maxSteps none,
        rwL := List.replicate cfg.maxSteps none, step := 0, err := False }
      (epRun_init cfg car0)
    refine ⟨l1, last, ?_, h2, h3⟩
    unfold episode
    simpa using hdec

/-- The wall x = 1 between the collision-witness car and its next position. -/
def wall1 : Seg := (((1 : ℝ), (-1 : ℝ)), ((1 : ℝ), (1 : ℝ)))

/-- The displacement segment of the collision-witness step: (0,0) to (2,0). -/
def dseg : Seg := (((0 : ℝ), (0 : ℝ)), ((2 : ℝ), (0 : ℝ)))

/-- Rollout configuration whose only wall is `wall1` and whose policy always
answers `(a, steer, dt) = (0, 0, 1)`; no sensor rays are configured. -/
def colCfg : EpCfg :=
  { lines := [wall1], anglesStd := [], lineLen := 30, maxSteps := 2,
    act := fun _ _ => (0, 0, 1), prob := fun _ => 0 }

/-- Loop state at the first iteration for the collision witness: the car is at
the origin with yaw 0 and forward speed 2. -/
def colSt : LoopSt :=
  { car := Car.init 0 0 0 2, exps := [], piL := List.replicate 2 none,
    rwL := List.replicate 2 none, step := 0, err := False }

lemma epUpd_col : (epUpd colCfg colSt).2.2 = dseg := by
  unfold epUpd epCtrl colCfg colSt dseg
  simp [Car.update, Car.model, Car.pos, Car.init]

lemma cal_crosspoint_wall1 : cal_crosspoint wall1 dseg = (True, ((1 : ℝ), (0 : ℝ))) := by
  unfold cal_crosspoint wall1 dseg
  norm_num

lemma is_online_wall1 : is_online wall1 ((1 : ℝ), (0 : ℝ)) := by
  unfold is_online wall1
  norm_num

lemma is_online_dseg : is_online dseg ((1 : ℝ), (0 : ℝ)) := by
  unfold is_online dseg
  norm_num

lemma crossing_wall1_flag : (crossing wall1 dseg).1 := by
  show (cal_crosspoint wall1 dseg).1 ∧
      is_online wall1 (cal_crosspoint wall1 dseg).2 ∧
      is_online dseg (cal_crosspoint wall1 dseg).2
  rw [cal_crosspoint_wall1]
  exact ⟨trivial, is_online_wall1, is_online_dseg⟩

lemma epCollision_col : epCollision colCfg colSt := by
  unfold epCollision
  rw [epUpd_col]
  show (MAP.is_collision [wall1] dseg).1
  unfold MAP.is_collision
  simp only [List.foldl_cons, List.foldl_nil]
  rw [if_pos crossing_wall1_flag]
  trivial

/-- Witness for C5: a one-step displacement from (0,0) to (2,0) crosses the
wall x = 1, and the appended record gets reward `collision_reward` with the
done flag set. -/
theorem episode_collision_semantics_witness :
    epCollision colCfg colSt ∧
    (stepRecOf colCfg colSt).reward = collision_reward ∧ (stepRecOf colCfg colSt).done := by
  have h2 := (episode_collision_semantics.2.1 colCfg colSt).2.1 epCollision_col
  exact ⟨epCollision_col, h2.1, h2.2⟩

lemma getD_set_self (l : List (Option ℝ)) (i : ℕ) (a : Option ℝ) (h : i < l.length) :
    (l.set i a).getD i none = a := by
  rw [List.getD_eq_getD_get?, List.get?_eq_getElem?, List.getElem?_set_self h]
  rfl

lemma getD_set_ne (l : List (Option ℝ)) (i j : ℕ) (a : Option ℝ) (h : i ≠ j) :
    (l.set i a).getD j none = l.getD j none := by
  rw [List.getD_eq_getD_get?, List.get?_eq_getElem?, List.getElem?_set_ne h,
    ← List.get?_eq_getElem?, ← List.getD_eq_getD_get?]

lemma getD_replicate_marker (n i : ℕ) :
    (List.replicate n (none : Option ℝ)).getD i none = none := by
  rw [List.getD_eq_getD_get?, List.get?_eq_getElem?, List.getElem?_replicate]
  split <;> rfl

/-- The padding invariant is preserved by the loop: the padded rows keep
length `maxSteps` and their non-marker positions are exactly `[0, step)`. -/
lemma episode_padding_aux (cfg : EpCfg) :
    ∀ st : LoopSt,
      (st.piL.length = cfg.maxSteps ∧ st.rwL.length = cfg.maxSteps ∧
        ∀ i, i < cfg.maxSteps →
          ((st.piL.getD i none ≠ none ↔ i < st.step) ∧
           (st.rwL.getD i none ≠ none ↔ i < st.step))) →
      ((episodeLoop cfg st).piL.length = cfg.maxSteps ∧
       (episodeLoop cfg st).rwL.length = cfg.maxSteps ∧
        ∀ i, i < cfg.maxSteps →
          (((episodeLoop cfg st).piL.getD i none ≠ none ↔ i < (episodeLoop cfg st).step) ∧
           ((episodeLoop cfg st).rwL.getD i none ≠ none ↔ i < (episodeLoop cfg st).step))) := by
  refine episodeLoop_inv cfg _ ?_
  intro st hI
  obtain ⟨h1, h2, h3⟩ := hI
  by_cases hok : epWriteOk st
  · refine ⟨?_, ?_, ?_⟩
    · rw [stepOnce_piL, List.length_set, h1]
    · rw [stepOnce_rwL, if_pos hok.1, List.length_set, h2]
    · intro i hi
      rw [stepOnce_piL, stepOnce_rwL, if_pos hok.1, stepOnce_step, if_pos hok]
      by_cases hcase : i = st.step
      · rw [hcase]
        rw [getD_set_self st.piL st.step _ hok.1, getD_set_self st.rwL st.step _ hok.2]
        constructor
        · constructor
          · intro _
            exact Nat.lt_succ_self _
          · intro _
            exact Option.some_ne_none _
        · constructor
          · intro _
            exact Nat.lt_succ_self _
          · intro _
            exact Option.some_ne_none _
      · rw [getD_set_ne st.piL st.step i _ (fun he => hcase he.symm),
          getD_set_ne st.rwL st.step i _ (fun he => hcase he.symm)]
        obtain ⟨hp, hr⟩ := h3 i hi
        rw [hp, hr]
        omega
  · have hms : cfg.maxSteps ≤ st.step := by
      unfold epWriteOk at hok
      rw [h1, h2] at hok
      omega
    have hnlt : ¬ st.step < st.piL.length := by
      rw [h1]
      omega
    have hpiL : (stepOnce cfg st).piL = st.piL := by
      rw [stepOnce_piL]
      exact List.set_eq_of_length_le (by rw [h1]; exact hms)
    have hrwL : (stepOnce cfg st).rwL = st.rwL := by
      rw [stepOnce_rwL, if_neg hnlt]
    have hstep : (stepOnce cfg st).step = st.step := by
      rw [stepOnce_step, if_neg hok]
    rw [hpiL, hrwL, hstep]
    exact ⟨h1, h2, h3⟩

lemma nansum_foldl_aux :
    ∀ (l : List (Option ℝ)) (acc : ℝ),
      l.foldl (fun acc x => match x with | some v => acc + v | none => acc) acc =
        acc + (l.filterMap id).sum := by
  intro l
  induction l with
  | nil =>
    intro acc
    simp
  | cons x t ih =>
    intro acc
    cases x with
    | none => simp [List.filterMap_cons, ih]
    | some v => simp [List.filterMap_cons, ih, add_assoc]

/-- C8: in the lists returned by `episode`, the padded probability and reward
rows have length `max_number_of_steps` and their non-marker entries are
exactly the positions in `[0, step)`; and `nansum` — the reduction used by
`update_policy` on these rows — adds exactly the non-marker entries, so
markers never participate in the per-episode sums or the batch means. -/
theorem episode_padding_invariant :
    (∀ (cfg : EpCfg) (car0 : CarState),
      (episode cfg car0).piL.length = cfg.maxSteps ∧
      (episode cfg car0).rwL.length = cfg.maxSteps ∧
      ∀ i, i < cfg.maxSteps →
        (((episode cfg car0).piL.getD i none ≠ none ↔ i < (episode cfg car0).step) ∧
         ((episode cfg car0).rwL.getD i none ≠ none ↔ i < (episode cfg car0).step))) ∧
    (∀ l : List (Option ℝ), nansum l = (l.filterMap id).sum) := by
  constructor
  · intro cfg car0
    refine episode_padding_aux cfg
      { car := car0, exps := [], piL := List.replicate cfg.maxSteps none,
        rwL := List.replicate cfg.maxSteps none, step := 0, err := False } ?_
    refine ⟨by simp, by simp, ?_⟩
    intro i hi
    simp [getD_replicate_marker]
  · intro l
    unfold nansum
    rw [nansum_foldl_aux]
    simp

/-- Witness for C8 with budget 1: index 0 is below the budget and the
equivalences hold for the concrete one-step rollout. -/
theorem episode_padding_invariant_witness :
    0 < witCfg.maxSteps ∧
    (((episode witCfg cexCar).piL.getD 0 none ≠ none ↔ 0 < (episode witCfg cexCar).step) ∧
     ((episode witCfg cexCar).rwL.getD 0 none ≠ none ↔ 0 < (episode witCfg cexCar).step)) :=
  ⟨Nat.one_pos, (episode_padding_invariant.1 witCfg cexCar).2.2 0 Nat.one_pos⟩

/-- C9: the observation handed to the policy is the per-ray distance vector
concatenated with the car's forward velocity `vx`; its length is the number of
configured rays plus one, and with the reference configuration
(`sensor_num = 15` rays) that is 16 entries. -/
theorem observation_vector_spec :
    (∀ (cfg : EpCfg) (car : CarState),
      epInput cfg car = epDistances cfg car ++ [car.vx] ∧
      (epInput cfg car).length = cfg.anglesStd.length + 1) ∧
    (∀ (amax : ℝ) (n : ℕ), (sensorAnglesStd amax n).length = n) ∧
    (sensorAnglesStd 180 15).length + 1 = 16 := by
  refine ⟨?_, ?_, ?_⟩
  · intro cfg car
    refine ⟨rfl, ?_⟩
    unfold epInput epDistances
    simp [make_line_length]
  · intro amax n
    unfold sensorAnglesStd
    rw [List.length_map, List.length_range]
  · unfold sensorAnglesStd
    rw [List.length_map, List.length_range]

lemma nansum_eq_filterMap (l : List (Option ℝ)) : nansum l = (l.filterMap id).sum := by
  unfold nansum
  rw [nansum_foldl_aux]
  simp

lemma filterMap_id_replicate_some (k : ℕ) (c : ℝ) :
    (List.replicate k (some c)).filterMap id = List.replicate k c := by
  induction k with
  | zero => rfl
  | succ k ih => simp [List.replicate_succ, List.filterMap_cons, ih]

lemma filterMap_id_replicate_none (m : ℕ) :
    (List.replicate m (none : Option ℝ)).filterMap id = [] := by
  induction m with
  | zero => rfl
  | succ m ih => simp [List.replicate_succ, List.filterMap_cons, ih]

lemma nansum_const_row (k m : ℕ) (c : ℝ) :
    nansum (List.replicate k (some c) ++ List.replicate m (none : Option ℝ)) = (k : ℝ) * c := by
  rw [nansum_eq_filterMap, List.filterMap_append, filterMap_id_replicate_some,
    filterMap_id_replicate_none, List.append_nil, List.sum_replicate, nsmul_eq_mul]

lemma forall₂_mem_left {α β : Type} {R : α → β → Prop} :
    ∀ {l₁ : List α} {l₂ : List β}, List.Forall₂ R l₁ l₂ → ∀ a ∈ l₁, ∃ b ∈ l₂, R a b := by
  intro l₁ l₂ h
  induction h with
  | nil =>
    intro a ha
    simp at ha
  | cons hab hrest ih =>
    intro x hx
    rcases List.mem_cons.mp hx with rfl | hx
    · exact ⟨_, List.mem_cons_self _ _, hab⟩
    · obtain ⟨b, hb, hR⟩ := ih x hx
      exact ⟨b, List.mem_cons_of_mem _ hb, hR⟩

lemma mem_zipWith {α β γ : Type} (f : α → β → γ) :
    ∀ (as : List α) (bs : List β) (x : γ), x ∈ List.zipWith f as bs →
      ∃ a b, a ∈ as ∧ b ∈ bs ∧ x = f a b := by
  intro as
  induction as with
  | nil =>
    intro bs x hx
    simp at hx
  | cons a as ih =>
    intro bs x hx
    cases bs with
    | nil => simp at hx
    | cons b bs =>
      rw [List.zipWith_cons_cons] at hx
      rcases List.mem_cons.mp hx with rfl | hx
      · exact ⟨a, b, List.mem_cons_self _ _, List.mem_cons_self _ _, rfl⟩
      · obtain ⟨a2, b2, h1, h2, h3⟩ := ih bs x hx
        exact ⟨a2, b2, List.mem_cons_of_mem _ h1, List.mem_cons_of_mem _ h2, h3⟩

/-- A batch of episodes with the same constant per-step reward `c` makes every
per-episode mean-per-step reward equal to `c`. -/
lemma zip_rows_const (c : ℝ) (rewards : List (List (Option ℝ))) (steps : List ℝ)
    (h : List.Forall₂ (fun row s => ∃ k m : ℕ, 1 ≤ k ∧ s = (k : ℝ) ∧
      row = List.replicate k (some c) ++ List.replicate m (none : Option ℝ)) rewards steps) :
    List.zipWith (fun r s => nansum r / s) rewards steps =
      List.replicate rewards.length c := by
  induction h with
  | nil => rfl
  | cons hab hrest ih =>
    obtain ⟨k, m, hk, hs, hrow⟩ := hab
    rw [List.zipWith_cons_cons, List.length_cons, List.replicate_succ, ih]
    congr 1
    rw [hrow, hs, nansum_const_row]
    exact mul_div_cancel_left₀ c (Nat.cast_ne_zero.mpr (by omega))

lemma reward_ave_const (rewards : List (List (Option ℝ))) (steps : List ℝ) (c : ℝ)
    (hne : rewards ≠ [])
    (h : List.Forall₂ (fun row s => ∃ k m : ℕ, 1 ≤ k ∧ s = (k : ℝ) ∧
      row = List.replicate k (some c) ++ List.replicate m (none : Option ℝ)) rewards steps) :
    reward_ave rewards steps = c := by
  unfold reward_ave listMean
  rw [zip_rows_const c rewards steps h, List.sum_replicate, List.length_replicate,
    nsmul_eq_mul]
  have hn : (rewards.length : ℝ) ≠ 0 :=
    Nat.cast_ne_zero.mpr (fun h0 => hne (List.length_eq_zero.mp h0))
  field_simp

lemma JmtEntry_zero (c : ℝ) (p r : Option ℝ) (hr : r = some c ∨ r = none) :
    JmtEntry c p r = none ∨ JmtEntry c p r = some 0 := by
  unfold JmtEntry clampProb
  rcases hr with rfl | rfl
  · cases p with
    | none => exact Or.inl rfl
    | some pv =>
      right
      simp
  · cases p with
    | none => exact Or.inl rfl
    | some pv => exact Or.inl rfl

lemma nansum_zero_row (row : List (Option ℝ)) (h : ∀ x ∈ row, x = none ∨ x = some 0) :
    nansum row = 0 := by
  rw [nansum_eq_filterMap]
  apply List.sum_eq_zero
  intro v hv
  obtain ⟨x, hx, hxv⟩ := List.mem_filterMap.mp hv
  rcases h x hx with rfl | rfl
  · simp at hxv
  · exact (Option.some.inj hxv).symm

lemma listMean_zeros (l : List ℝ) (h : ∀ x ∈ l, x = 0) : listMean l = 0 := by
  unfold listMean
  rw [List.sum_eq_zero h, zero_div]

/-- C3: when every episode of the batch has the same constant per-step reward
`c` on its non-marker positions, with `steps` holding the episode lengths
(all at least one), the baseline `reward_ave` computed by `update_policy`
equals `c`, the advantage factor `reward - baseline` is exactly zero at every
non-marker step, and the batch objective `J` is exactly zero. -/
theorem update_policy_const_reward (rewards policies : List (List (Option ℝ)))
    (steps : List ℝ) (c : ℝ) (hne : rewards ≠ [])
    (h : List.Forall₂ (fun row s => ∃ k m : ℕ, 1 ≤ k ∧ s = (k : ℝ) ∧
      row = List.replicate k (some c) ++ List.replicate m (none : Option ℝ)) rewards steps) :
    reward_ave rewards steps = c ∧
    (∀ row ∈ rewards, ∀ x ∈ row, ∀ v : ℝ, x = some v →
      v - reward_ave rewards steps = 0) ∧
    Jobj rewards policies steps = 0 := by
  have hav : reward_ave rewards steps = c := reward_ave_const rewards steps c hne h
  refine ⟨hav, ?_, ?_⟩
  · intro row hrow x hx v hv
    obtain ⟨s, hs, k, m, hk, hsk, hrowEq⟩ := forall₂_mem_left h row hrow
    rw [hrowEq] at hx
    rcases List.mem_append.mp hx with hx | hx
    · have hxc := List.eq_of_mem_replicate hx
      rw [hv] at hxc
      rw [Option.some.inj hxc, hav, sub_self]
    · have hxc := List.eq_of_mem_replicate hx
      rw [hv] at hxc
      exact absurd hxc (Option.some_ne_none v)
  · unfold Jobj
    rw [hav]
    apply listMean_zeros
    intro x hx
    obtain ⟨row, s, hrowmem, hsmem, rfl⟩ := mem_zipWith _ _ _ _ hx
    obtain ⟨prow, rrow, hpmem, hrmem, rfl⟩ := mem_zipWith _ _ _ _ hrowmem
    rw [nansum_zero_row, zero_div]
    intro y hy
    obtain ⟨p, r, hp, hr, rfl⟩ := mem_zipWith _ _ _ _ hy
    have hrc : r = some c ∨ r = none := by
      obtain ⟨s2, hs2, k, m, hk, hsk, hrowEq⟩ := forall₂_mem_left h rrow hrmem
      rw [hrowEq] at hr
      rcases List.mem_append.mp hr with hr | hr
      · exact Or.inl (List.eq_of_mem_replicate hr)
      · exact Or.inr (List.eq_of_mem_replicate hr)
    exact JmtEntry_zero c p r hrc

/-- Witness for C3: one episode of length one with constant reward 1 and
recorded action probability 1/2 — the baseline is 1 and the objective is 0. -/
theorem update_policy_const_reward_witness :
    ([[some (1 : ℝ)]] : List (List (Option ℝ))) ≠ [] ∧
    (reward_ave [[some (1 : ℝ)]] [(1 : ℝ)] = 1 ∧
     (∀ row ∈ ([[some (1 : ℝ)]] : List (List (Option ℝ))), ∀ x ∈ row, ∀ v : ℝ,
        x = some v → v - reward_ave [[some (1 : ℝ)]] [(1 : ℝ)] = 0) ∧
     Jobj [[some (1 : ℝ)]] [[some (1 / 2 : ℝ)]] [(1 : ℝ)] = 0) := by
  have hF : List.Forall₂ (fun (row : List (Option ℝ)) (s : ℝ) => ∃ k m : ℕ, 1 ≤ k ∧
      s = (k : ℝ) ∧
      row = List.replicate k (some (1 : ℝ)) ++ List.replicate m (none : Option ℝ))
      [[some (1 : ℝ)]] [(1 : ℝ)] := by
    refine List.Forall₂.cons ⟨1, 0, le_refl 1, by norm_num, by rfl⟩ List.Forall₂.nil
  exact ⟨by simp,
    update_policy_const_reward [[some 1]] [[some (1 / 2)]] [1] 1 (by simp) hF⟩

end SDC

end
